import Mathlib

/-
Verification of the crawl traversal engine of `webscrape.py`.

The development shallowly embeds the program:

* `write_with_line_breaks` (the inner function of `scrape_articles`,
  lines 82-93 of the source) is embedded over `List Char`, with the
  backward whitespace scan (`scanBack`), the per-line break position
  (`breakPos`) and the fuel-indexed writing loop (`wwlbAux`).  The loop
  advances `start` by at least one each iteration and runs only while
  `start < text.length`, so fuel `text.length + 1` is always sufficient;
  `write_with_line_breaks` supplies exactly that fuel.

* `scrape_articles` (lines 95-139) is embedded as a fuel-indexed state
  machine `crawlLoop` over `CrawlState`.  The external capabilities the
  spec excludes from the core are parameters of `Config`: `fetch`
  combines `requests.get` + `BeautifulSoup` (returning `none` when the
  per-page `try` body raises, i.e. a fetch/parse failure), `urljoin` is
  the resolver from `urllib.parse`, and the wall clock is a function
  `clock : Nat → Nat` giving the elapsed time observed by the k-th
  deadline query (`time.time() - start_time`, modelled at `Nat`
  granularity).  A parser link `link.get("href")` that is `None` is
  modelled as the empty string, matching Python truthiness of
  `if href:`.  The fields `dequeued`, `fetchCalls` and `fetched` are
  observation traces: the entries popped from the frontier, the entries
  for which `requests.get` was invoked, and the entries whose try-body
  ran to completion (reaching the deadline check).

* The exception plumbing of lines 99-139 and 143-158 is embedded by
  `scrape_body` (the `with open(...)` block, which either runs the loop
  or raises an IOError at `open`) together with `scrape_articles`
  (which installs the `except IOError` / `except Exception` handlers and
  therefore never lets an error escape) and `mainExitCode` (the
  `__main__` try/except deciding the process exit status).
-/

/-! ## Line wrapper (`write_with_line_breaks`, source lines 82-93) -/

/-- The backward scan `while end > start and text[end] != ' ': end -= 1`
(source lines 86-87).  Callers only invoke it with `e < text.length`,
so the `getD` default is never consulted. -/
def scanBack (text : List Char) (start : Nat) : Nat → Nat
  | 0 => 0
  | e + 1 =>
    if e + 1 ≤ start then e + 1
    else if text.getD (e + 1) ' ' = ' ' then e + 1
    else scanBack text start e

/-- The break position computed for the line starting at `start`
(source lines 84-91): tentative endpoint `start + max_line_length`; if it
falls strictly inside the text, scan backward for a space, falling back
to a hard cut at the tentative endpoint when the scan comes back to
`start`; otherwise the line runs to the end of the text. -/
def breakPos (text : List Char) (maxLen start : Nat) : Nat :=
  if start + maxLen < text.length then
    if scanBack text start (start + maxLen) = start then start + maxLen
    else scanBack text start (start + maxLen)
  else text.length

/-- The writing loop of `write_with_line_breaks` (source lines 83-93):
emits `text[start:end]` as a line and resumes at `end + 1`.  Fuel-indexed;
each iteration strictly increases `start`, so `text.length + 1` fuel
reproduces the Python `while` loop exactly. -/
def wwlbAux (text : List Char) (maxLen : Nat) : Nat → Nat → List (List Char)
  | 0, _ => []
  | fuel + 1, start =>
    if start < text.length then
      (text.drop start).take (breakPos text maxLen start - start)
        :: wwlbAux text maxLen fuel (breakPos text maxLen start + 1)
    else []

/-- `write_with_line_breaks(text, max_line_length, file)`: the list of
lines written to the file, each followed by a single `"\n"` when
rendered (`renderLines`). -/
def write_with_line_breaks (text : List Char) (maxLen : Nat) : List (List Char) :=
  wwlbAux text maxLen (text.length + 1) 0

/-- Rendering of the emitted lines as the string actually written:
`file.write(text[start:end] + "\n")` for each line. -/
def renderLines (ls : List (List Char)) : String :=
  String.join (ls.map (fun l => String.mk l ++ "\n"))






/-! ## Crawl traversal engine (`scrape_articles`, source lines 95-139) -/

/-- The parser capability's view of a page: `soup.title` (with its
string, `none` when absent), `soup.get_text()` = `soup.text`, and the
`href` values of `soup.find_all("a")` in document order (a missing
`href` attribute is modelled as `""`, which Python's `if href:` skips). -/
structure Page where
  title : Option String
  text : String
  hrefs : List String
deriving Repr, DecidableEq

/-- The session parameters plus the external capabilities of the spec:
fetch-and-parse (`none` = the per-page try body raises), the URL
resolver, and the configured budget. -/
structure Config where
  url : String
  depth : Int
  search : String
  runTime : Nat
  fetch : String → Option Page
  urljoin : String → String → String

/-- Traversal state: the visited set, the FIFO frontier, the body text
written to the output file after the header, the console lines, the
count of deadline-governor queries, the timeout flag, plus the
observation traces `dequeued` (entries popped), `fetchCalls` (entries
for which `requests.get` was invoked) and `fetched` (entries whose try
body ran to completion). -/
structure CrawlState where
  visited : List String
  queue : List (String × Int)
  body : String
  console : List String
  clockUsed : Nat
  timedOut : Bool
  dequeued : List (String × Int)
  fetchCalls : List (String × Int)
  fetched : List (String × Int)

/-- Source lines 117-120: each truthy `href` is resolved with
`urljoin(url, href)` — against the session's start URL `cfg.url` — and
appended to the frontier at depth `d + 1`, unconditionally. -/
def resolveLinks (cfg : Config) (hrefs : List String) (d : Int) : List (String × Int) :=
  (hrefs.filter (fun h => h != "")).map (fun h => (cfg.urljoin cfg.url h, d + 1))

/-- `startsWithL needle hay`: `hay` begins with `needle`. -/
def startsWithL : List Char → List Char → Bool
  | [], _ => true
  | _ :: _, [] => false
  | a :: as, b :: bs => a == b && startsWithL as bs

/-- `containsSub needle hay`: `needle` occurs as a contiguous substring
of `hay` (Python's `in` on strings). -/
def containsSub (needle : List Char) : List Char → Bool
  | [] => startsWithL needle []
  | c :: t => startsWithL needle (c :: t) || containsSub needle t

/-- Source line 122: `search_string.lower() in soup.text.lower()`. -/
def strMatch (search text : String) : Bool :=
  containsSub (search.data.map Char.toLower) (text.data.map Char.toLower)

/-- Source line 123: `soup.title.string if soup.title else "No title found"`. -/
def titleOf (p : Page) : String :=
  match p.title with
  | some t => t
  | none => "No title found"

/-- The `while urls_to_visit:` loop (source lines 105-134), fuel-indexed.
One unit of fuel per iteration; every branch of the body recurses on the
tail of the frontier, so any fuel bounding the iteration count
reproduces the Python loop.  Branches, in source order: dequeue
(line 106); skip when visited or over depth (108-109); mark visited
(111); fetch/parse, which may raise (113-115, 133-134); unconditional
link enqueueing (117-120); search match, title print and wrapped write
(122-126); deadline query, timeout message and `break` (128-131). -/
def crawlLoop (cfg : Config) (clock : Nat → Nat) : Nat → CrawlState → CrawlState
  | 0, s => s
  | fuel + 1, s =>
    match s.queue with
    | [] => s
    | (u, d) :: rest =>
      if u ∈ s.visited ∨ d > cfg.depth then
        crawlLoop cfg clock fuel
          { s with queue := rest, dequeued := s.dequeued ++ [(u, d)] }
      else
        match cfg.fetch u with
        | none =>
          crawlLoop cfg clock fuel
            { s with
              queue := rest
              dequeued := s.dequeued ++ [(u, d)]
              visited := u :: s.visited
              fetchCalls := s.fetchCalls ++ [(u, d)]
              console := s.console ++ ["Error processing URL " ++ u ++ ": error"] }
        | some page =>
          let s2 : CrawlState :=
            { s with
              queue := rest ++ resolveLinks cfg page.hrefs d
              dequeued := s.dequeued ++ [(u, d)]
              visited := u :: s.visited
              fetchCalls := s.fetchCalls ++ [(u, d)] }
          let s3 : CrawlState :=
            if strMatch cfg.search page.text then
              { s2 with
                console := s2.console ++ ["Found article: " ++ titleOf page]
                body := s2.body ++ renderLines (write_with_line_breaks page.text.data 80) }
            else s2
          if clock s3.clockUsed > cfg.runTime then
            { s3 with
              clockUsed := s3.clockUsed + 1
              fetched := s3.fetched ++ [(u, d)]
              console := s3.console ++ ["Scrape has timed out"]
              timedOut := true }
          else
            crawlLoop cfg clock fuel
              { s3 with
                clockUsed := s3.clockUsed + 1
                fetched := s3.fetched ++ [(u, d)] }

/-- Source lines 96-97: empty visited set, frontier seeded with
`(url, 0)`. -/
def initState (cfg : Config) : CrawlState :=
  { visited := [], queue := [(cfg.url, 0)], body := "", console := [],
    clockUsed := 0, timedOut := false, dequeued := [], fetchCalls := [], fetched := [] }

/-- The traversal from the seeded frontier. -/
def crawl (cfg : Config) (clock : Nat → Nat) (fuel : Nat) : CrawlState :=
  crawlLoop cfg clock fuel (initState cfg)

/-- Source lines 101-103: the three header lines written before
traversal begins. -/
def headerStr (cfg : Config) : String :=
  "Search Term: " ++ cfg.search ++ "\n" ++
  "URL: " ++ cfg.url ++ "\n" ++
  "Search Depth: " ++ toString cfg.depth ++ "\n"

/-- The `with open(...)` block (source lines 100-134): either the open
succeeds and the session runs to completion, or opening the sink raises
an `IOError` before anything is written. -/
def scrape_body (cfg : Config) (clock : Nat → Nat) (openOk : Bool) (fuel : Nat) :
    Except String CrawlState :=
  if openOk then Except.ok (crawl cfg clock fuel)
  else Except.error ("Error opening or writing to output file: open failed")

/-- The result of one `scrape_articles` call: the full contents of the
output file, the console lines, and whether an exception escaped the
function. -/
structure ScrapeOut where
  fileContent : String
  console : List String
  escaped : Bool

/-- `scrape_articles` with its `except IOError` / `except Exception`
handlers (source lines 136-139): a sink failure is caught and logged,
so no exception ever escapes (`escaped := false` in every branch). -/
def scrape_articles (cfg : Config) (clock : Nat → Nat) (openOk : Bool) (fuel : Nat) :
    ScrapeOut :=
  match scrape_body cfg clock openOk fuel with
  | Except.ok st =>
    { fileContent := headerStr cfg ++ st.body, console := st.console, escaped := false }
  | Except.error msg =>
    { fileContent := "", console := [msg], escaped := false }

/-- The `__main__` guard (source lines 154-158): exits 1 only when an
exception escapes `scrape_articles`, otherwise falls off the end of the
script and exits 0. -/
def mainExitCode (cfg : Config) (clock : Nat → Nat) (openOk : Bool) (fuel : Nat) : Nat :=
  if (scrape_articles cfg clock openOk fuel).escaped then 1 else 0

/-! ## Concrete scenarios -/

/-- A page with the given links, no title, empty text. -/
def mkPage (hs : List String) : Page :=
  { title := none, text := "", hrefs := hs }

/-- Scenario for link resolution: start URL `"S"`, resolver that joins
with a slash, a chain of relative links `"a"` on the seed page and
`"b"` on the page fetched second. -/
def cfgResolve : Config :=
  { url := "S", depth := 5, search := "q", runTime := 99,
    fetch := fun u =>
      if u = "S" then some (mkPage ["a"])
      else if u = "S/a" then some (mkPage ["b"])
      else if u = "S/b" then some (mkPage [])
      else if u = "S/a/b" then some (mkPage [])
      else none,
    urljoin := fun b h => b ++ "/" ++ h }

/-- Scenario for deduplication: the seed links to `"A"` twice and to
`"B"` once; fetching `"A"` raises. -/
def cfgDedup : Config :=
  { url := "S", depth := 9, search := "q", runTime := 99,
    fetch := fun u =>
      if u = "S" then some (mkPage ["A", "A", "B"])
      else if u = "B" then some (mkPage [])
      else none,
    urljoin := fun _ h => h }

/-- Scenario for BFS order: seed links to `A` and `B`, `A` links to
`C`. -/
def cfgBfs : Config :=
  { url := "seed", depth := 3, search := "q", runTime := 99,
    fetch := fun u =>
      if u = "seed" then some (mkPage ["A", "B"])
      else if u = "A" then some (mkPage ["C"])
      else if u = "B" then some (mkPage [])
      else if u = "C" then some (mkPage [])
      else none,
    urljoin := fun _ h => h }

/-- Scenario for depth cutoff: `depth = 0`, the seed links to `"A"`,
which itself links to `"Z"`; the entry `("A", 1)` is over depth. -/
def cfgDepth : Config :=
  { url := "S", depth := 0, search := "q", runTime := 99,
    fetch := fun u =>
      if u = "S" then some (mkPage ["A"])
      else if u = "A" then some (mkPage ["Z"])
      else none,
    urljoin := fun _ h => h }

/-- Scenario for timeout: a single page, a clock already past the
budget of 3 at the first query. -/
def cfgTimeout : Config :=
  { url := "S", depth := 2, search := "q", runTime := 3,
    fetch := fun u => if u = "S" then some (mkPage ["A"]) else none,
    urljoin := fun _ h => h }

/-- Scenario for a negative depth bound. -/
def cfgNeg : Config :=
  { url := "S", depth := -1, search := "t", runTime := 9,
    fetch := fun u => if u = "S" then some (mkPage ["A"]) else none,
    urljoin := fun _ h => h }

/-- The constantly-zero clock: no timeout with a positive budget. -/
def clock0 : Nat → Nat := fun _ => 0

/-- A clock stuck at 5: over any budget below 5 from the first query. -/
def clock5 : Nat → Nat := fun _ => 5

/-- Bound on frontier depths: every queued depth is at most one more
than the depth at the front of the queue. -/
def qBound : List (String × Int) → Prop
  | [] => True
  | h :: t => ∀ x ∈ h :: t, x.2 ≤ h.2 + 1













/-! ## Loop invariants -/

/-- An exhausted frontier ends the loop (the `while urls_to_visit:`
guard). -/
theorem crawlLoop_empty_queue (cfg : Config) (clock : Nat → Nat) (fuel : Nat)
    (s : CrawlState) (h : s.queue = []) : crawlLoop cfg clock fuel s = s := by
  cases fuel with
  | zero => rfl
  | succ n => simp [crawlLoop, h]

/-- Dedup invariant: the URLs passed to the fetcher are pairwise
distinct, and each of them is in the visited set. -/
theorem crawlLoop_nodup (cfg : Config) (clock : Nat → Nat) :
    ∀ (fuel : Nat) (s : CrawlState),
      (s.fetchCalls.map Prod.fst).Nodup →
      (∀ u ∈ s.fetchCalls.map Prod.fst, u ∈ s.visited) →
      ((crawlLoop cfg clock fuel s).fetchCalls.map Prod.fst).Nodup ∧
        ∀ u ∈ (crawlLoop cfg clock fuel s).fetchCalls.map Prod.fst,
          u ∈ (crawlLoop cfg clock fuel s).visited := by
  intro fuel
  induction fuel with
  | zero => intro s h1 h2; exact ⟨h1, h2⟩
  | succ n ih =>
    intro s h1 h2
    rw [crawlLoop]
    rcases hq : s.queue with _ | ⟨⟨u, d⟩, rest⟩
    · exact ⟨h1, h2⟩
    · simp only
      by_cases hskip : u ∈ s.visited ∨ d > cfg.depth
      · rw [if_pos hskip]
        exact ih _ h1 h2
      · rw [if_neg hskip]
        have hu : u ∉ s.visited := fun hmem => hskip (Or.inl hmem)
        have hufc : u ∉ s.fetchCalls.map Prod.fst := fun hmem => hu (h2 u hmem)
        have h1' : ((s.fetchCalls ++ [(u, d)]).map Prod.fst).Nodup := by
          simp [List.nodup_append, h1, hufc]
        have h2' : ∀ x ∈ (s.fetchCalls ++ [(u, d)]).map Prod.fst, x ∈ u :: s.visited := by
          intro x hx
          simp only [List.map_append, List.mem_append] at hx
          rcases hx with hx | hx
          · exact List.mem_cons_of_mem _ (h2 x hx)
          · simp at hx
            simp [hx]
        rcases hf : cfg.fetch u with _ | page
        · exact ih _ h1' h2'
        · simp only
          by_cases hm : strMatch cfg.search page.text = true
          · rw [if_pos hm]
            by_cases ht : clock (s.clockUsed) > cfg.runTime
            · rw [if_pos ht]
              exact ⟨h1', h2'⟩
            · rw [if_neg ht]
              exact ih _ h1' h2'
          · rw [if_neg hm]
            by_cases ht : clock (s.clockUsed) > cfg.runTime
            · rw [if_pos ht]
              exact ⟨h1', h2'⟩
            · rw [if_neg ht]
              exact ih _ h1' h2'

/-- Depth-cutoff invariant: every entry for which the fetcher is
invoked has depth at most `cfg.depth`. -/
theorem crawlLoop_depth_bound (cfg : Config) (clock : Nat → Nat) :
    ∀ (fuel : Nat) (s : CrawlState),
      (∀ e ∈ s.fetchCalls, e.2 ≤ cfg.depth) →
      ∀ e ∈ (crawlLoop cfg clock fuel s).fetchCalls, e.2 ≤ cfg.depth := by
  intro fuel
  induction fuel with
  | zero => intro s h; exact h
  | succ n ih =>
    intro s h
    rw [crawlLoop]
    rcases hq : s.queue with _ | ⟨⟨u, d⟩, rest⟩
    · exact h
    · simp only
      by_cases hskip : u ∈ s.visited ∨ d > cfg.depth
      · rw [if_pos hskip]
        exact ih _ h
      · rw [if_neg hskip]
        have hd : d ≤ cfg.depth := le_of_not_lt fun hlt => hskip (Or.inr hlt)
        have h' : ∀ e ∈ s.fetchCalls ++ [(u, d)], e.2 ≤ cfg.depth := by
          intro e he
          rcases List.mem_append.mp he with he | he
          · exact h e he
          · simp at he
            simp [he, hd]
        rcases hf : cfg.fetch u with _ | page
        · exact ih _ h'
        · simp only
          by_cases hm : strMatch cfg.search page.text = true
          · rw [if_pos hm]
            by_cases ht : clock (s.clockUsed) > cfg.runTime
            · rw [if_pos ht]; exact h'
            · rw [if_neg ht]; exact ih _ h'
          · rw [if_neg hm]
            by_cases ht : clock (s.clockUsed) > cfg.runTime
            · rw [if_pos ht]; exact h'
            · rw [if_neg ht]; exact ih _ h'

/-- Governor-count invariant: the number of deadline queries made is
exactly the number of entries whose try body ran to completion. -/
theorem crawlLoop_clock_count (cfg : Config) (clock : Nat → Nat) :
    ∀ (fuel : Nat) (s : CrawlState),
      s.clockUsed = s.fetched.length →
      (crawlLoop cfg clock fuel s).clockUsed =
        (crawlLoop cfg clock fuel s).fetched.length := by
  intro fuel
  induction fuel with
  | zero => intro s h; exact h
  | succ n ih =>
    intro s h
    rw [crawlLoop]
    rcases hq : s.queue with _ | ⟨⟨u, d⟩, rest⟩
    · exact h
    · simp only
      by_cases hskip : u ∈ s.visited ∨ d > cfg.depth
      · rw [if_pos hskip]
        exact ih _ h
      · rw [if_neg hskip]
        have h' : s.clockUsed + 1 = (s.fetched ++ [(u, d)]).length := by
          simp [h]
        rcases hf : cfg.fetch u with _ | page
        · exact ih _ h
        · simp only
          by_cases hm : strMatch cfg.search page.text = true
          · rw [if_pos hm]
            by_cases ht : clock (s.clockUsed) > cfg.runTime
            · rw [if_pos ht]; exact h'
            · rw [if_neg ht]; exact ih _ h'
          · rw [if_neg hm]
            by_cases ht : clock (s.clockUsed) > cfg.runTime
            · rw [if_pos ht]; exact h'
            · rw [if_neg ht]; exact ih _ h'

/-- A timed-out run ends with the timeout notification as the very
last console line, and the timeout flag is set only at that moment. -/
theorem crawlLoop_timeout_msg (cfg : Config) (clock : Nat → Nat) :
    ∀ (fuel : Nat) (s : CrawlState),
      s.timedOut = false →
      (crawlLoop cfg clock fuel s).timedOut = true →
      (crawlLoop cfg clock fuel s).console.getLast? = some "Scrape has timed out" := by
  intro fuel
  induction fuel with
  | zero => intro s h ht; rw [crawlLoop] at ht; rw [h] at ht; cases ht
  | succ n ih =>
    intro s h
    rw [crawlLoop]
    rcases hq : s.queue with _ | ⟨⟨u, d⟩, rest⟩
    · intro ht; rw [h] at ht; cases ht
    · simp only
      by_cases hskip : u ∈ s.visited ∨ d > cfg.depth
      · rw [if_pos hskip]
        exact ih _ h
      · rw [if_neg hskip]
        rcases hf : cfg.fetch u with _ | page
        · exact ih _ h
        · simp only
          by_cases hm : strMatch cfg.search page.text = true
          · rw [if_pos hm]
            by_cases ht : clock (s.clockUsed) > cfg.runTime
            · rw [if_pos ht]
              intro _
              simp
            · rw [if_neg ht]
              exact ih _ h
          · rw [if_neg hm]
            by_cases ht : clock (s.clockUsed) > cfg.runTime
            · rw [if_pos ht]
              intro _
              simp
            · rw [if_neg ht]
              exact ih _ h

/-- Every link discovered from a page dequeued at depth `d` is enqueued
at depth `d + 1` (source line 120). -/
theorem resolveLinks_snd (cfg : Config) (hrefs : List String) (d : Int) :
    ∀ x ∈ resolveLinks cfg hrefs d, x.2 = d + 1 := by
  intro x hx
  simp only [resolveLinks, List.mem_map, List.mem_filter] at hx
  obtain ⟨h, _, hx⟩ := hx
  rw [← hx]

/-- A constant list of depths is sorted. -/
theorem sorted_all_eq (c : Int) :
    ∀ (l : List Int), (∀ x ∈ l, x = c) → List.Sorted (· ≤ ·) l := by
  intro l
  induction l with
  | nil => intro _; exact List.sorted_nil
  | cons a t ih =>
    intro h
    refine List.sorted_cons.mpr ⟨?_, ih ?_⟩
    · intro b hb
      rw [h a (List.mem_cons_self a t), h b (List.mem_cons_of_mem _ hb)]
    · intro b hb
      exact h b (List.mem_cons_of_mem _ hb)

/-- BFS invariant: the depths of the dequeued entries followed by the
queued entries always form a non-decreasing sequence, and the entries
passed to the fetcher are a subsequence of the dequeued entries. -/
theorem crawlLoop_bfs (cfg : Config) (clock : Nat → Nat) :
    ∀ (fuel : Nat) (s : CrawlState),
      List.Sorted (· ≤ ·) ((s.dequeued ++ s.queue).map Prod.snd) →
      qBound s.queue →
      s.fetchCalls.Sublist s.dequeued →
      List.Sorted (· ≤ ·)
          (((crawlLoop cfg clock fuel s).dequeued
            ++ (crawlLoop cfg clock fuel s).queue).map Prod.snd) ∧
        (crawlLoop cfg clock fuel s).fetchCalls.Sublist
          (crawlLoop cfg clock fuel s).dequeued := by
  intro fuel
  induction fuel with
  | zero => intro s h1 _ h3; exact ⟨h1, h3⟩
  | succ n ih =>
    intro s h1 h2 h3
    rw [crawlLoop]
    rcases hq : s.queue with _ | ⟨⟨u, d⟩, rest⟩
    · exact ⟨h1, h3⟩
    · rw [hq] at h1 h2
      have h1' : List.Sorted (· ≤ ·)
          (s.dequeued.map Prod.snd ++ (d :: rest.map Prod.snd)) := by
        simpa using h1
      obtain ⟨hsA, hsQ, hcross⟩ := List.pairwise_append.mp h1'
      have hdle : ∀ b ∈ rest.map Prod.snd, d ≤ b := (List.sorted_cons.mp hsQ).1
      have hqb : ∀ x ∈ (u, d) :: rest, x.2 ≤ d + 1 := h2
      have hsortSkip : List.Sorted (· ≤ ·)
          (((s.dequeued ++ [(u, d)]) ++ rest).map Prod.snd) := by
        simpa [List.append_assoc] using h1
      have hqbRest : qBound rest := by
        rcases rest with _ | ⟨hd0, tl0⟩
        · trivial
        · intro x hx
          have hx1 : x.2 ≤ d + 1 := hqb x (List.mem_cons_of_mem _ hx)
          have hx2 : d ≤ hd0.2 := hdle hd0.2 (by simp)
          omega
      have hsubSkip : s.fetchCalls.Sublist (s.dequeued ++ [(u, d)]) :=
        h3.trans (List.sublist_append_left _ _)
      have hsubFetch : (s.fetchCalls ++ [(u, d)]).Sublist (s.dequeued ++ [(u, d)]) :=
        h3.append (List.Sublist.refl _)
      simp only
      by_cases hskip : u ∈ s.visited ∨ d > cfg.depth
      · rw [if_pos hskip]
        exact ih _ hsortSkip hqbRest hsubSkip
      · rw [if_neg hskip]
        rcases hf : cfg.fetch u with _ | page
        · exact ih _ hsortSkip hqbRest hsubFetch
        · simp only
          have hN : ∀ x ∈ resolveLinks cfg page.hrefs d, x.2 = d + 1 :=
            resolveLinks_snd cfg page.hrefs d
          have hsort2 : List.Sorted (· ≤ ·)
              (((s.dequeued ++ [(u, d)])
                ++ (rest ++ resolveLinks cfg page.hrefs d)).map Prod.snd) := by
            have hbig : List.Sorted (· ≤ ·)
                (((s.dequeued ++ (u, d) :: rest)
                  ++ resolveLinks cfg page.hrefs d).map Prod.snd) := by
              rw [List.map_append]
              refine List.pairwise_append.mpr ⟨h1, ?_, ?_⟩
              · refine sorted_all_eq (d + 1) _ ?_
                intro x hx
                obtain ⟨y, hy, rfl⟩ := List.mem_map.mp hx
                exact hN y hy
              · intro a ha b hb
                obtain ⟨y, hy, rfl⟩ := List.mem_map.mp hb
                have hb1 : y.2 = d + 1 := hN y hy
                obtain ⟨z, hz, rfl⟩ := List.mem_map.mp ha
                rcases List.mem_append.mp hz with hz | hz
                · have hz1 : z.2 ≤ d :=
                    hcross z.2 (List.mem_map_of_mem _ hz) d (List.mem_cons_self _ _)
                  omega
                · rcases List.mem_cons.mp hz with rfl | hz
                  · show d ≤ y.2
                    omega
                  · have hz1 : z.2 ≤ d + 1 := hqb z (List.mem_cons_of_mem _ hz)
                    omega
            simpa [List.append_assoc] using hbig
          have hqb2 : qBound (rest ++ resolveLinks cfg page.hrefs d) := by
            rcases rest with _ | ⟨hd0, tl0⟩
            · rcases hn : resolveLinks cfg page.hrefs d with _ | ⟨n0, nt⟩
              · trivial
              · intro x hx
                have hx1 : x.2 = d + 1 := hN x (by rw [hn]; exact hx)
                have hn0 : n0.2 = d + 1 := hN n0 (by rw [hn]; exact List.mem_cons_self _ _)
                omega
            · intro x hx
              have hd0le : d ≤ hd0.2 := hdle hd0.2 (by simp)
              rcases List.mem_cons.mp hx with rfl | hx
              · omega
              · rcases List.mem_append.mp hx with hx | hx
                · have hx1 : x.2 ≤ d + 1 :=
                    hqb x (List.mem_cons_of_mem _ (List.mem_cons_of_mem _ hx))
                  omega
                · have hx1 : x.2 = d + 1 := hN x hx
                  omega
          by_cases hm : strMatch cfg.search page.text = true
          · rw [if_pos hm]
            by_cases ht : clock (s.clockUsed) > cfg.runTime
            · rw [if_pos ht]
              exact ⟨hsort2, hsubFetch⟩
            · rw [if_neg ht]
              exact ih _ hsort2 hqb2 hsubFetch
          · rw [if_neg hm]
            by_cases ht : clock (s.clockUsed) > cfg.runTime
            · rw [if_pos ht]
              exact ⟨hsort2, hsubFetch⟩
            · rw [if_neg ht]
              exact ih _ hsort2 hqb2 hsubFetch

/-! ## Properties of the backward scan -/

/-- The scan never moves forward. -/
theorem scanBack_le (text : List Char) (start : Nat) :
    ∀ e, scanBack text start e ≤ e := by
  intro e
  induction e with
  | zero => exact Nat.le_refl 0
  | succ n ih =>
    rw [scanBack]
    by_cases h1 : n + 1 ≤ start
    · rw [if_pos h1]
    · rw [if_neg h1]
      by_cases h2 : text.getD (n + 1) ' ' = ' '
      · rw [if_pos h2]
      · rw [if_neg h2]
        exact Nat.le_succ_of_le ih

/-- The scan never moves below the line start. -/
theorem scanBack_ge (text : List Char) (start : Nat) :
    ∀ e, start ≤ e → start ≤ scanBack text start e := by
  intro e
  induction e with
  | zero => intro h; exact h
  | succ n ih =>
    intro h
    rw [scanBack]
    by_cases h1 : n + 1 ≤ start
    · rw [if_pos h1]; exact h
    · rw [if_neg h1]
      by_cases h2 : text.getD (n + 1) ' ' = ' '
      · rw [if_pos h2]; exact h
      · rw [if_neg h2]
        exact ih (by omega)

/-- Where the scan stops: either it has come back to the line start, or
it stopped on a space. -/
theorem scanBack_stop (text : List Char) (start : Nat) :
    ∀ e, scanBack text start e ≤ start ∨
      text.getD (scanBack text start e) ' ' = ' ' := by
  intro e
  induction e with
  | zero => exact Or.inl (Nat.zero_le start)
  | succ n ih =>
    rw [scanBack]
    by_cases h1 : n + 1 ≤ start
    · rw [if_pos h1]; exact Or.inl h1
    · rw [if_neg h1]
      by_cases h2 : text.getD (n + 1) ' ' = ' '
      · rw [if_pos h2]; exact Or.inr h2
      · rw [if_neg h2]; exact ih

/-- No position strictly between the scan's stopping point and the
tentative endpoint holds a space. -/
theorem scanBack_no_space (text : List Char) (start : Nat) :
    ∀ e j, scanBack text start e < j → j ≤ e → text.getD j ' ' ≠ ' ' := by
  intro e
  induction e with
  | zero => intro j h1 h2; omega
  | succ n ih =>
    intro j h1 h2
    rw [scanBack] at h1
    by_cases hb1 : n + 1 ≤ start
    · rw [if_pos hb1] at h1; omega
    · rw [if_neg hb1] at h1
      by_cases hb2 : text.getD (n + 1) ' ' = ' '
      · rw [if_pos hb2] at h1; omega
      · rw [if_neg hb2] at h1
        by_cases hj : j ≤ n
        · exact ih j h1 hj
        · have : j = n + 1 := by omega
          rw [this]
          exact hb2

/-- The writing loop stops as soon as the cursor reaches the end of the
text, for any fuel. -/
theorem wwlbAux_stop (text : List Char) (maxLen : Nat) :
    ∀ (fuel start : Nat), text.length ≤ start → wwlbAux text maxLen fuel start = [] := by
  intro fuel start h
  cases fuel with
  | zero => rfl
  | succ n => simp [wwlbAux, Nat.not_lt.mpr h]

/-! ## Claims -/

/-- Claim C1, evaluated at the failing input: the claim says each href
is resolved against the page's own URL.  With start URL `"S"`, a
resolver that joins base and href with `"/"`, the seed linking to the
relative href `"a"` and the page `"S/a"` linking to the relative href
`"b"`, the code enqueues and fetches `"S/b"` — `urljoin(url, href)` at
source line 120 uses the session start URL as base — whereas resolving
against the page's own URL `"S/a"` would have produced `"S/a/b"`, which
is never enqueued nor fetched. -/
theorem claim1_resolution_base_eval :
    (crawl cfgResolve clock0 20).fetchCalls.map Prod.fst = ["S", "S/a", "S/b"] ∧
      ("S/b", (2 : Int)) ∈ (crawl cfgResolve clock0 20).dequeued ∧
      "S/a/b" ∉ (crawl cfgResolve clock0 20).fetchCalls.map Prod.fst ∧
      ("S/a/b", (2 : Int)) ∉ (crawl cfgResolve clock0 20).dequeued := by
  exact ⟨by decide, by decide, by decide, by decide⟩

/-- Claim C2, evaluated at the failing input: wrapping the whitespace-
free 8-character text `"abcdefgh"` at width 3.  The claim (and the
function's own docstring, which only inserts newlines) requires 3 lines
`"abc"`, `"def"`, `"gh"` reconstructing the input; the code emits 2
lines `"abc"`, `"efg"` because `start = end + 1` at source line 93 also
skips one character after every forced cut, dropping `'d'` and `'h'`. -/
theorem claim2_hard_cut_eval :
    write_with_line_breaks "abcdefgh".data 3 = [['a','b','c'], ['e','f','g']] ∧
      (write_with_line_breaks "abcdefgh".data 3).length ≠ 3 ∧
      (write_with_line_breaks "abcdefgh".data 3).flatten ≠ "abcdefgh".data := by
  exact ⟨by decide, by decide, by decide⟩

/-- Claim C5: within one session no URL is passed to the fetcher twice
(even when enqueued repeatedly), every URL the fetcher was invoked on —
including failed fetches — is in the visited set, and in the concrete
failure scenario (seed linking to `A`, `A`, `B`, with the fetch of `A`
raising) the fetch sequence is `S`, `A`, `B`: the failing `A` is logged,
never retried, and traversal continues with `B`. -/
theorem claim5_no_refetch (cfg : Config) (clock : Nat → Nat) (fuel : Nat) :
    ((crawl cfg clock fuel).fetchCalls.map Prod.fst).Nodup ∧
      ((crawl cfg clock fuel).fetchCalls.map Prod.fst).all
        (fun u => decide (u ∈ (crawl cfg clock fuel).visited)) = true ∧
      (crawl cfgDedup clock0 20).fetchCalls.map Prod.fst = ["S", "A", "B"] ∧
      (crawl cfgDedup clock0 20).console = ["Error processing URL A: error"] := by
  have h := crawlLoop_nodup cfg clock fuel (initState cfg)
    (by simp [initState]) (by simp [initState])
  refine ⟨h.1, ?_, by decide, by decide⟩
  rw [List.all_eq_true]
  intro u hu
  exact decide_eq_true (h.2 u hu)

/-- Claim C6: the fetcher is never invoked on a frontier entry whose
depth exceeds `max_depth`; in the concrete scenario with `max_depth = 0`
and the seed linking to `A`, the entry `("A", 1)` is dequeued and
discarded — only the seed is fetched, the frontier drains to empty, and
`A` contributes no links. -/
theorem claim6_depth_cutoff (cfg : Config) (clock : Nat → Nat) (fuel : Nat) :
    ((crawl cfg clock fuel).fetchCalls.all
        (fun e => decide (e.2 ≤ cfg.depth))) = true ∧
      (crawl cfgDepth clock0 20).fetchCalls = [("S", 0)] ∧
      (crawl cfgDepth clock0 20).dequeued = [("S", 0), ("A", 1)] ∧
      (crawl cfgDepth clock0 20).queue = [] := by
  have h := crawlLoop_depth_bound cfg clock fuel (initState cfg) (by simp [initState])
  refine ⟨?_, by decide, by decide, by decide⟩
  rw [List.all_eq_true]
  intro e he
  exact decide_eq_true (h e he)

/-- Claim C7: entries are processed in BFS order — the depths of the
dequeued entries, and of the fetched entries, always form a
non-decreasing sequence — and in the concrete scenario (seed linking to
`A` and `B`, `A` linking to `C`) the processing order is
`seed`, `A`, `B`, `C`. -/
theorem claim7_bfs_order (cfg : Config) (clock : Nat → Nat) (fuel : Nat) :
    List.Sorted (· ≤ ·) ((crawl cfg clock fuel).dequeued.map Prod.snd) ∧
      List.Sorted (· ≤ ·) ((crawl cfg clock fuel).fetchCalls.map Prod.snd) ∧
      (crawl cfgBfs clock0 20).fetchCalls.map Prod.fst = ["seed", "A", "B", "C"] := by
  have hInit1 : List.Sorted (· ≤ ·)
      (((initState cfg).dequeued ++ (initState cfg).queue).map Prod.snd) := by
    simp [initState]
  have hInit2 : qBound (initState cfg).queue := by
    intro x hx
    rcases List.mem_singleton.mp hx with rfl
    show (0 : Int) ≤ 0 + 1
    omega
  have hInit3 : (initState cfg).fetchCalls.Sublist (initState cfg).dequeued :=
    List.Sublist.refl _
  have h := crawlLoop_bfs cfg clock fuel (initState cfg) hInit1 hInit2 hInit3
  have hdeq : List.Sorted (· ≤ ·) ((crawl cfg clock fuel).dequeued.map Prod.snd) := by
    have h1 := h.1
    rw [List.map_append] at h1
    exact (List.pairwise_append.mp h1).1
  refine ⟨hdeq, ?_, by decide⟩
  exact List.Pairwise.sublist (h.2.map Prod.snd) hdeq

/-- Claim C4: the deadline governor is queried exactly once per entry
whose try body ran to completion (skipped entries and entries whose
fetch raised never reach the check at source line 128), and when a query
reports the budget exceeded, the loop stops at once with the timeout
notification as the final console line — a signaled, non-error stop. -/
theorem claim4_governor (cfg : Config) (clock : Nat → Nat) (fuel : Nat) :
    (crawl cfg clock fuel).clockUsed = (crawl cfg clock fuel).fetched.length ∧
      ((crawl cfg clock fuel).timedOut = true →
        (crawl cfg clock fuel).console.getLast? = some "Scrape has timed out") := by
  exact ⟨crawlLoop_clock_count cfg clock fuel (initState cfg) rfl,
    crawlLoop_timeout_msg cfg clock fuel (initState cfg) rfl⟩

/-- Witness for C4: concrete timed-out run (elapsed 5 against budget 3
at the first query): one governor query for the one fetched entry, and
the timeout line closes the console. -/
theorem claim4_witness :
    (crawl cfgTimeout clock5 20).clockUsed = (crawl cfgTimeout clock5 20).fetched.length ∧
      (crawl cfgTimeout clock5 20).console.getLast? = some "Scrape has timed out" :=
  ⟨(claim4_governor cfgTimeout clock5 20).1,
    (claim4_governor cfgTimeout clock5 20).2 (by decide)⟩

/-- Appending the empty string on the right is the identity. -/
theorem strAppendEmpty (s : String) : s ++ "" = s := by
  cases s with
  | mk data => show String.mk (data ++ []) = String.mk data; rw [List.append_nil]

/-- Prepending the empty string is the identity. -/
theorem strEmptyAppend (s : String) : "" ++ s = s := by
  cases s with
  | mk data => rfl

/-- Claim C10: with a negative `max_depth` and a sink that opens, the
seed entry `(url, 0)` is dequeued and discarded (`0 > max_depth`), so
no URL is ever fetched, the frontier drains, the run ends normally
(no timeout), and the output file holds exactly the three header
lines. -/
theorem claim10_negative_depth (cfg : Config) (clock : Nat → Nat) (fuel : Nat)
    (h : cfg.depth < 0) :
    (scrape_articles cfg clock true (fuel + 1)).fileContent = headerStr cfg ∧
      (crawl cfg clock (fuel + 1)).fetchCalls = [] ∧
      (crawl cfg clock (fuel + 1)).queue = [] ∧
      (crawl cfg clock (fuel + 1)).timedOut = false := by
  have hstep : crawl cfg clock (fuel + 1)
      = { initState cfg with queue := [], dequeued := [(cfg.url, 0)] } := by
    rw [crawl, crawlLoop]
    show (if cfg.url ∈ (initState cfg).visited ∨ (0 : Int) > cfg.depth then _ else _) = _
    rw [if_pos (Or.inr (by omega : (0 : Int) > cfg.depth))]
    exact crawlLoop_empty_queue cfg clock fuel _ rfl
  refine ⟨?_, by simp [hstep, initState], by simp [hstep, initState],
    by simp [hstep, initState]⟩
  show headerStr cfg ++ (crawl cfg clock (fuel + 1)).body = headerStr cfg
  rw [hstep]
  show headerStr cfg ++ "" = headerStr cfg
  exact strAppendEmpty _

/-- Witness for C10: the concrete session with `max_depth = -1`. -/
theorem claim10_witness :
    (scrape_articles cfgNeg clock0 true (19 + 1)).fileContent = headerStr cfgNeg ∧
      (crawl cfgNeg clock0 (19 + 1)).fetchCalls = [] ∧
      (crawl cfgNeg clock0 (19 + 1)).queue = [] ∧
      (crawl cfgNeg clock0 (19 + 1)).timedOut = false :=
  claim10_negative_depth cfgNeg clock0 19 (by decide)

/-- Claim C3, refuted at a concrete input: a session whose output sink
fails to open.  `scrape_articles` catches the `IOError` itself (source
line 136), logs it and returns normally — no `FatalError` escapes — and
the process exit code is 0, not non-zero. -/
theorem claim3_counterexample :
    (scrape_articles cfgResolve clock0 false 5).escaped = false ∧
      mainExitCode cfgResolve clock0 false 5 = 0 ∧
      (scrape_articles cfgResolve clock0 false 5).console
        = ["Error opening or writing to output file: open failed"] := by
  exact ⟨rfl, rfl, rfl⟩

/-- Claim C3 (amended): a failure to open the output sink is caught
inside `scrape_articles`: the session is aborted before any traversal,
an error line is logged, no error propagates out of the call, nothing is
written, and the process exits zero.  Per-page fetch/parse failures are
caught at source line 133, logged against that URL only, and the loop
continues with the rest of the frontier — the session is not aborted. -/
theorem claim3_amended (cfg : Config) (clock : Nat → Nat) (fuel : Nat) :
    (scrape_articles cfg clock false fuel).escaped = false ∧
      mainExitCode cfg clock false fuel = 0 ∧
      (scrape_articles cfg clock false fuel).console
        = ["Error opening or writing to output file: open failed"] ∧
      (scrape_articles cfg clock false fuel).fileContent = "" ∧
      ∀ (s : CrawlState) (u : String) (d : Int) (rest : List (String × Int)),
        s.queue = (u, d) :: rest →
        u ∉ s.visited →
        d ≤ cfg.depth →
        cfg.fetch u = none →
        crawlLoop cfg clock (fuel + 1) s =
          crawlLoop cfg clock fuel
            { s with
              queue := rest
              dequeued := s.dequeued ++ [(u, d)]
              visited := u :: s.visited
              fetchCalls := s.fetchCalls ++ [(u, d)]
              console := s.console ++ ["Error processing URL " ++ u ++ ": error"] } := by
  refine ⟨rfl, rfl, rfl, rfl, ?_⟩
  intro s u d rest hq hu hd hf
  rw [crawlLoop, hq]
  simp only
  rw [if_neg ?_, hf]
  rintro (hmem | hgt)
  · exact hu hmem
  · omega

/-- Witness for the amended C3: the open-failure part at a concrete
session, and the fetch-failure part at the concrete state whose frontier
holds the single entry `("A", 0)` under `cfgDedup`, where fetching `A`
raises. -/
theorem claim3_witness :
    (scrape_articles cfgDedup clock0 false 3).escaped = false ∧
      mainExitCode cfgDedup clock0 false 3 = 0 ∧
      crawlLoop cfgDedup clock0 4
          { visited := [], queue := [("A", 0)], body := "", console := [],
            clockUsed := 0, timedOut := false, dequeued := [], fetchCalls := [],
            fetched := [] }
        = crawlLoop cfgDedup clock0 3
            { visited := ["A"], queue := [], body := "",
              console := ["Error processing URL A: error"], clockUsed := 0,
              timedOut := false, dequeued := [("A", 0)], fetchCalls := [("A", 0)],
              fetched := [] } := by
  have h := claim3_amended cfgDedup clock0 3
  exact ⟨h.1, h.2.1,
    h.2.2.2.2 _ "A" 0 [] rfl (by decide) (by decide) (by decide)⟩

/-- Claim C8, refuted at a concrete input: the text `"aa\tbb"` wrapped
at width 4.  The tentative endpoint falls strictly inside the text and a
tab — whitespace, but not the ASCII space the scan at source line 86
tests for — sits between line start and endpoint; the claim predicts a
break at the tab (first line `"aa"`), but the code hard-cuts at width 4
instead. -/
theorem claim8_counterexample :
    write_with_line_breaks ['a','a','\t','b','b'] 4 = [['a','a','\t','b']] ∧
      write_with_line_breaks ['a','a','\t','b','b'] 4 ≠ [['a','a'], ['b','b']] := by
  exact ⟨by decide, by decide⟩

/-- Claim C8 (amended): when the tentative endpoint `start + max_width`
falls strictly inside the text, the wrapper scans backward to the
nearest ASCII space `' '` strictly after the line start (other
whitespace does not stop the scan) and breaks there; only when no space
occurs at any position in `(start, start + max_width]` does it hard-cut
at `start + max_width`. -/
theorem claim8_amended (text : List Char) (maxLen start fuel : Nat)
    (h : start + maxLen < text.length) :
    wwlbAux text maxLen (fuel + 1) start
        = (text.drop start).take (breakPos text maxLen start - start)
          :: wwlbAux text maxLen fuel (breakPos text maxLen start + 1) ∧
      (scanBack text start (start + maxLen) = start →
        breakPos text maxLen start = start + maxLen ∧
          ∀ j, start < j → j ≤ start + maxLen → text.getD j ' ' ≠ ' ') ∧
      (scanBack text start (start + maxLen) ≠ start →
        breakPos text maxLen start = scanBack text start (start + maxLen) ∧
          text.getD (breakPos text maxLen start) ' ' = ' ' ∧
          start < breakPos text maxLen start ∧
          breakPos text maxLen start ≤ start + maxLen ∧
          ∀ j, breakPos text maxLen start < j → j ≤ start + maxLen →
            text.getD j ' ' ≠ ' ') := by
  have hge : start ≤ scanBack text start (start + maxLen) :=
    scanBack_ge text start (start + maxLen) (by omega)
  have hle : scanBack text start (start + maxLen) ≤ start + maxLen :=
    scanBack_le text start (start + maxLen)
  refine ⟨?_, ?_, ?_⟩
  · rw [wwlbAux, if_pos (by omega : start < text.length)]
  · intro hr
    have hbp : breakPos text maxLen start = start + maxLen := by
      rw [breakPos, if_pos h, if_pos hr]
    refine ⟨hbp, ?_⟩
    intro j hj1 hj2
    exact scanBack_no_space text start (start + maxLen) j (by omega) hj2
  · intro hr
    have hbp : breakPos text maxLen start = scanBack text start (start + maxLen) := by
      rw [breakPos, if_pos h, if_neg hr]
    have hsp : text.getD (scanBack text start (start + maxLen)) ' ' = ' ' := by
      rcases scanBack_stop text start (start + maxLen) with hstop | hstop
      · omega
      · exact hstop
    refine ⟨hbp, ?_, ?_, ?_, ?_⟩
    · rw [hbp]; exact hsp
    · omega
    · omega
    · intro j hj1 hj2
      rw [hbp] at hj1
      exact scanBack_no_space text start (start + maxLen) j hj1 hj2

/-- Witness for the amended C8: wrapping `"ab cd"` at width 3 from
position 0 — the scan stops on the space at index 2, strictly between
the line start and the tentative endpoint 3, and the emitted line is
`"ab"`. -/
theorem claim8_witness :
    breakPos ['a','b',' ','c','d'] 3 0 = 2 ∧
      ['a','b',' ','c','d'].getD 2 ' ' = ' ' ∧
      wwlbAux ['a','b',' ','c','d'] 3 3 0
        = (['a','b',' ','c','d'].drop 0).take (breakPos ['a','b',' ','c','d'] 3 0 - 0)
          :: wwlbAux ['a','b',' ','c','d'] 3 2 (breakPos ['a','b',' ','c','d'] 3 0 + 1) := by
  have h := claim8_amended ['a','b',' ','c','d'] 3 0 2 (by decide)
  have h3 := h.2.2 (by decide)
  exact ⟨h3.1, h3.2.1, h.1⟩

/-- Claim C9, refuted at the empty text: the claim includes the empty
text, for which it predicts a single empty line (a lone newline), but
the loop guard `start < len(text)` at source line 83 is false at once,
so nothing at all is written. -/
theorem claim9_counterexample :
    write_with_line_breaks [] 80 = [] ∧
      write_with_line_breaks [] 80 ≠ [[]] ∧
      renderLines (write_with_line_breaks [] 80) = "" := by
  exact ⟨by decide, by decide, rfl⟩

/-- Claim C9 (amended): the empty text produces no output at all, and
every nonempty text of length at most `max_width` produces exactly one
line equal to the text, rendered as the text followed by a single
newline. -/
theorem claim9_amended (text : List Char) (maxLen : Nat) :
    write_with_line_breaks [] maxLen = [] ∧
      (text ≠ [] → text.length ≤ maxLen →
        write_with_line_breaks text maxLen = [text] ∧
          renderLines (write_with_line_breaks text maxLen)
            = String.mk text ++ "\n") := by
  constructor
  · rfl
  · intro hne hlen
    have hpos : 0 < text.length := List.length_pos.mpr hne
    have hmain : write_with_line_breaks text maxLen = [text] := by
      rw [write_with_line_breaks, wwlbAux, if_pos hpos]
      have hbp : breakPos text maxLen 0 = text.length := by
        rw [breakPos, if_neg (by omega)]
      rw [hbp, wwlbAux_stop text maxLen _ _ (by omega)]
      simp
    refine ⟨hmain, ?_⟩
    rw [hmain]
    show "" ++ (String.mk text ++ "\n") = String.mk text ++ "\n"
    exact strEmptyAppend _

/-- Witness for the amended C9: the two-character text `"hi"` wrapped
at width 80. -/
theorem claim9_witness :
    write_with_line_breaks ['h','i'] 80 = [['h','i']] ∧
      renderLines (write_with_line_breaks ['h','i'] 80)
        = String.mk ['h','i'] ++ "\n" :=
  (claim9_amended ['h','i'] 80).2 (by decide) (by decide)
